import Mathlib

/-!
Verification of the brag-document core (src/document_utils.py, src/server.py).

The document is embedded as a list of paragraphs; the side-car index as a
structure whose `sections` and `entries` maps are association lists that
preserve insertion order, matching Python dict semantics.  Calls to
`datetime.now()` are embedded as explicit natural-number timestamp
parameters, one per call in source order.  Filesystem contents appear as
explicit `Option` values; the docx style-repair glue on open (a file-format
concern) is not part of the embedded logic.
-/

/-- A text run inside a paragraph; `bold` models python-docx `run.bold`
with `None` mapped to `false` (it is only ever read in boolean position). -/
structure Run where
  text : String
  bold : Bool
deriving DecidableEq, Repr

instance : Inhabited Run := ⟨⟨"", false⟩⟩

/-- A paragraph: its text, declared style name and runs, the only
attributes the source reads. -/
structure Paragraph where
  text : String
  styleName : String
  runs : List Run
deriving DecidableEq, Repr

instance : Inhabited Paragraph := ⟨⟨"", "", []⟩⟩

/-- Characters stripped by `str.strip()` (the source only ever deals in
ASCII whitespace). -/
def isSpaceChar (c : Char) : Bool :=
  c = (' ') || c = ('\t') || c = ('\n') || c = ('\r')

def dropLeadingSpaces : List Char → List Char
  | [] => []
  | c :: rest => if isSpaceChar c then dropLeadingSpaces rest else c :: rest

/-- Python `str.strip()`: remove leading and trailing whitespace. -/
def pyStrip (s : String) : String :=
  String.mk (dropLeadingSpaces ((dropLeadingSpaces s.data.reverse).reverse))

def startsWithChars : List Char → List Char → Bool
  | _, [] => true
  | [], _ :: _ => false
  | c :: cs, d :: ds => (c = d) && startsWithChars cs ds

/-- Python `str.startswith(pat)`. -/
def pyStartsWith (s pat : String) : Bool :=
  startsWithChars s.data pat.data

/-- Python `section_path.split('/')` on the underlying characters. -/
def splitCharsOnSlash : List Char → List (List Char)
  | [] => [[]]
  | c :: rest =>
    match splitCharsOnSlash rest with
    | s :: tl => if c = ('/') then [] :: s :: tl else (c :: s) :: tl
    | [] => [[]]

/-- Python of the source: `[part.strip() for part in section_path.split('/')]`. -/
def splitSectionPath (sectionPath : String) : List String :=
  (splitCharsOnSlash sectionPath.data).map (fun cs => pyStrip (String.mk cs))

/-- Embeds `is_heading_paragraph` (document_utils.py lines 168-196): heuristic
heading classifier.  Rules in source order, first match wins. -/
def is_heading_paragraph (p : Paragraph) : Bool :=
  if pyStrip p.text = ("") then false
  else if pyStartsWith p.styleName ("Heading") then true
  else if !p.runs.isEmpty &&
          (p.runs.filter (fun r => decide (pyStrip r.text ≠ ""))).all (fun r => r.bold) then true
  else if decide ((pyStrip p.text).length < 100) &&
          (!p.runs.isEmpty && (p.runs.headD default).bold) then true
  else false

/-- Scan `for j in range(lo, hi): if pred(doc.paragraphs[j]): return j` —
first index in `[lo, hi)` whose paragraph satisfies `p`.  An index beyond
the document length (never reached by the source, whose bounds satisfy
`hi ≤ doc.length`) counts as a non-match. -/
def firstIdxIn (doc : List Paragraph) (p : Paragraph → Bool) (lo hi : Nat) : Option Nat :=
  (List.range' lo (hi - lo)).find? (fun j =>
    match doc[j]? with
    | some para => p para
    | none => false)

/-- The fixed ordered vocabulary of known top-level sections
(document_utils.py lines 222-231). -/
def top_level_sections : List String :=
  ["Goals for this year",
   "Goals for next year",
   "Goals for next year (optional)",
   "Projects",
   "Collaboration & mentorship",
   "Documentation",
   "What you learned",
   "Outside of work"]

/-- The main-section matching test of `find_section_paragraph` (lines
237-241): exact text match, plus the one alias applied only when the
requested name is `"Goals for next year"`. -/
def sectionMatches (mainSection paraText : String) : Bool :=
  paraText = mainSection ||
    (mainSection = ("Goals for next year") &&
     paraText = ("Goals for next year (optional)"))

/-- The `section_end` search of `find_section_paragraph` (lines 245-257):
iterate the fixed vocabulary in order, skipping the main section, and stop
at the first name for which some heading strictly after `i` matches;
`none` when no vocabulary name matches.  (The Python falsy test
`if section_end:` coincides with an is-set test because every candidate
index is at least `i + 1 ≥ 1`.) -/
def findSectionEnd (doc : List Paragraph) (i : Nat) (mainSection : String) : Option Nat :=
  (top_level_sections.filter (fun s => s ≠ mainSection)).findSome?
    (fun s => firstIdxIn doc
      (fun p => is_heading_paragraph p && pyStrip p.text = s) (i + 1) doc.length)

/-- Embeds `find_section_paragraph` (document_utils.py lines 199-290): resolve a
section path to its half-open paragraph-index range. -/
def find_section_paragraph (doc : List Paragraph) (sectionPath : String) : Option (Nat × Nat) :=
  let parts := splitSectionPath sectionPath
  let mainSection := parts.headD ("")
  let nestedSection := parts[1]?
  match firstIdxIn doc
      (fun p => is_heading_paragraph p && sectionMatches mainSection (pyStrip p.text))
      0 doc.length with
  | none => none
  | some i =>
    let sectionStart := i + 1
    let sectionEnd := (findSectionEnd doc i mainSection).getD doc.length
    match nestedSection with
    | none => some (sectionStart, sectionEnd)
    | some nested =>
      match firstIdxIn doc
          (fun p => is_heading_paragraph p && pyStrip p.text = nested)
          sectionStart sectionEnd with
      | none => none
      | some k =>
        let nestedStart := k + 1
        let nestedEnd :=
          (firstIdxIn doc (fun p => is_heading_paragraph p) (k + 1) sectionEnd).getD sectionEnd
        some (nestedStart, nestedEnd)

/-- The paragraph rendered for a new entry: an empty paragraph receives a
single run holding a literal bullet marker followed by the text
(document_utils.py lines 450-457). -/
def mkBulletParagraph (text : String) : Paragraph :=
  { text := ("• ") ++ text, styleName := ("Normal"), runs := [⟨("• ") ++ text, false⟩] }

/-- Embeds `add_entry_to_document` (document_utils.py lines 322-465) on the
paragraph list: returns the updated paragraph list and the index at which
the new paragraph resides.  The docx style-repair-on-open path (lines
344-423) is file-format glue and is not part of the embedded logic. -/
def add_entry_to_document (doc : List Paragraph) (sectionPath text : String)
    (position : Option Nat) : Except String (List Paragraph × Nat) :=
  match find_section_paragraph doc sectionPath with
  | none => .error (("Section ") ++ sectionPath ++ (" not found in document"))
  | some (startIdx, endIdx) =>
    let insertIdx0 :=
      match position with
      | none =>
        (List.range' startIdx (endIdx - startIdx)).foldl
          (fun acc j => if decide (pyStrip (doc.getD j default).text ≠ "") then j + 1 else acc)
          startIdx
      | some pos => min (startIdx + pos) endIdx
    let insertIdx := min insertIdx0 doc.length
    if insertIdx < doc.length then
      .ok (doc.take insertIdx ++ mkBulletParagraph text :: doc.drop insertIdx, insertIdx)
    else
      .ok (doc ++ [mkBulletParagraph text], doc.length)

/-- One recorded entry of the side-car index (document_utils.py lines
771-778). -/
structure Entry where
  entry_id : String
  section_path : String
  text : String
  paragraph_index : Nat
  created_at : Nat
  updated_at : Nat
deriving DecidableEq, Repr

/-- One section bucket of the side-car index (document_utils.py lines
765-768). -/
structure SectionInfo where
  created_at : Nat
  entry_ids : List String
deriving DecidableEq, Repr

/-- The side-car index.  `sections` and `entries` are association lists
preserving insertion order, the Python dict semantics the source relies
on. -/
structure Index where
  document_name : String
  created_at : Nat
  updated_at : Nat
  sections : List (String × SectionInfo)
  entries : List (String × Entry)
deriving DecidableEq, Repr

/-- Python dict lookup `d[k]` / `k in d` on an association list. -/
def alGet {α : Type} : List (String × α) → String → Option α
  | [], _ => none
  | kv :: rest, k => if kv.1 = k then some kv.2 else alGet rest k

/-- Python dict assignment `d[k] = v`: replace the value at an existing
key in place, otherwise append the new key at the end. -/
def alSet {α : Type} : List (String × α) → String → α → List (String × α)
  | [], k, v => [(k, v)]
  | kv :: rest, k, v => if kv.1 = k then (k, v) :: rest else kv :: alSet rest k v

/-- In-place modification of the value at a key (`d[k].field.append(x)`
style access); leaves the list unchanged when the key is absent. -/
def alModify {α : Type} : List (String × α) → String → (α → α) → List (String × α)
  | [], _, _ => []
  | kv :: rest, k, f => if kv.1 = k then (k, f kv.2) :: rest else kv :: alModify rest k f

/-- The fresh empty index structure written by `ensure_index_file`
(document_utils.py lines 113-119); `t1` and `t2` are its two successive
`datetime.now()` reads. -/
def freshIndex (stem : String) (t1 t2 : Nat) : Index :=
  { document_name := stem, created_at := t1, updated_at := t2, sections := [], entries := [] }

/-- Embeds `ensure_index_file` (document_utils.py lines 97-121) acting on the
index file contents (`none` = file absent): write a fresh empty structure
only when the file does not exist. -/
def ensure_index_file (file : Option Index) (stem : String) (t1 t2 : Nat) : Option Index :=
  match file with
  | some i => some i
  | none => some (freshIndex stem t1 t2)

/-- Embeds `load_index` (document_utils.py lines 133-150): create the file first
when it is absent, then parse it; returns (parsed index, file contents
after the call). -/
def load_index (file : Option Index) (stem : String) (t1 t2 : Nat) : Index × Option Index :=
  match ensure_index_file file stem t1 t2 with
  | some i => (i, some i)
  | none => (freshIndex stem t1 t2, none)

/-- Embeds `save_index` (document_utils.py lines 153-165): refresh the top-level
`updated_at`, then write. -/
def save_index (idx : Index) (t : Nat) : Index :=
  { idx with updated_at := t }

/-- Embeds `update_entry_to_index` (document_utils.py lines 588-617): fail when
`entry_id` is absent, otherwise overwrite the entry text and refresh the
timestamps; `t1 t2 t3` are the three successive `datetime.now()` reads
(entry `updated_at`, index `updated_at`, and the one inside
`save_index`). -/
def update_entry_to_index (idx : Index) (entry_id new_text : String)
    (t1 t2 t3 : Nat) : Except String Index :=
  match alGet idx.entries entry_id with
  | none => .error (("Entry with ID ") ++ entry_id ++ (" not found in index."))
  | some e =>
    let e2 := { e with text := new_text, updated_at := t1 }
    let idx1 := { idx with entries := alSet idx.entries entry_id e2, updated_at := t2 }
    .ok (save_index idx1 t3)

/-- Embeds `add_entry_to_index` (document_utils.py lines 745-783): create the
section bucket on first use, record the entry, append its id to the
bucket; `t1 t2 t3 t4` are the successive `datetime.now()` reads (section
`created_at` when new, entry `created_at`, entry `updated_at`, and the
one inside `save_index`). -/
def add_entry_to_index (idx : Index) (entry_id section_path text : String)
    (paragraph_index : Nat) (t1 t2 t3 t4 : Nat) : Index :=
  let sections1 :=
    if (alGet idx.sections section_path).isNone then
      alSet idx.sections section_path ⟨t1, []⟩
    else idx.sections
  let entry : Entry := ⟨entry_id, section_path, text, paragraph_index, t2, t3⟩
  let entries1 := alSet idx.entries entry_id entry
  let sections2 := alModify sections1 section_path
    (fun info => { info with entry_ids := info.entry_ids ++ [entry_id] })
  save_index { idx with sections := sections2, entries := entries1 } t4

/-- Embeds `get_document_path` (document_utils.py lines 40-56) as a path
string. -/
def get_document_path (root full_name : String) (year : Nat) : String :=
  root ++ ("/BragDocuments/") ++ full_name ++ ("/Brag Document - ") ++ full_name
    ++ (" (") ++ toString year ++ (").docx")

/-- The stem of the index file name (document_utils.py lines 75-81). -/
def indexStem (full_name : String) (year : Nat) : String :=
  ("Brag Document - ") ++ full_name ++ (" (") ++ toString year ++ (")")

/-- Embeds `get_index_path` (document_utils.py lines 59-81) as a path string. -/
def get_index_path (root full_name : String) (year : Nat) : String :=
  root ++ ("/BragDocuments/") ++ full_name ++ ("/.index/") ++ indexStem full_name year
    ++ (".json")

/-- The filesystem state a create call touches: the document file, its
index file, and the template file (`none` = absent). -/
structure FsState where
  document : Option (List Paragraph)
  indexFile : Option Index
  template : Option (List Paragraph)
deriving DecidableEq

/-- Result status of `create_brag_document` (server.py lines 61-137). -/
inductive CreateStatus where
  | created
  | alreadyExists
  | failed
deriving DecidableEq, Repr

/-- The structured result of `create_brag_document`. -/
structure CreateResult where
  status : CreateStatus
  document_path : String
  index_path : String
deriving DecidableEq

/-- The backup-protected initialization step of create (server.py lines
100-117): a backup copy of the freshly copied document is taken before
`initialize_document_from_template` runs; the step either completes with
a fully initialized document (`Except.ok`) or raises after leaving the
document in some intermediate state (carried by `Except.error`), in which
case the backup is copied back over the document and unlinked.  Returns
(document contents after the step, backup file contents after the
step). -/
def createInitStep (doc : List Paragraph)
    (initRes : Except (List Paragraph) (List Paragraph)) :
    List Paragraph × Option (List Paragraph) :=
  let backup : Option (List Paragraph) := some doc
  match initRes with
  | .ok initializedDoc => (initializedDoc, none)
  | .error intermediateDoc =>
    match backup with
    | some b => (b, none)
    | none => (intermediateDoc, none)

/-- Embeds `create_brag_document` (server.py lines 32-137).  `initRes` stands for
the outcome of `initialize_document_from_template` on the copied
template; `t1 t2` are the `datetime.now()` reads inside
`ensure_index_file` when it creates the index. -/
def create_brag_document (st : FsState) (root full_name : String) (year : Nat)
    (initRes : Except (List Paragraph) (List Paragraph)) (t1 t2 : Nat) :
    CreateResult × FsState :=
  let docPath := get_document_path root full_name year
  let idxPath := get_index_path root full_name year
  match st.document with
  | some _ =>
    (⟨.alreadyExists, docPath, idxPath⟩,
     { st with indexFile := ensure_index_file st.indexFile (indexStem full_name year) t1 t2 })
  | none =>
    match st.template with
    | none => (⟨.failed, docPath, idxPath⟩, st)
    | some tpl =>
      let afterInit := createInitStep tpl initRes
      (⟨.created, docPath, idxPath⟩,
       { st with document := some afterInit.1,
                 indexFile := ensure_index_file st.indexFile (indexStem full_name year) t1 t2 })

/-- The three failure conditions of `find_entry_by_text`. -/
inductive FindErr where
  | sectionEmpty
  | noMatch
  | occurrenceOutOfRange
deriving DecidableEq, Repr

/-- Modelled from the spec: `find_entry_by_text` is imported by server.py
from `document_utils` (server.py line 25) and called by `update_entry`
(server.py lines 281-286), but its definition is absent from the
available sources.  Per spec section 4.5, `find_by_text` filters entries
whose `section_path` matches and whose `text` equals the query, preserving
index insertion order, and returns the `occurrence_index`-th (0-based)
match, failing distinctly when the section has zero entries, when there
is no match at all, and when `occurrence_index` is beyond the match
count. -/
def find_entry_by_text (idx : Index) (query section_path : String)
    (occurrence_index : Nat) : Except FindErr String :=
  let inSection := idx.entries.filter (fun kv => decide (kv.2.section_path = section_path))
  if inSection = [] then .error .sectionEmpty
  else
    let found := inSection.filter (fun kv => decide (kv.2.text = query))
    if found = [] then .error .noMatch
    else
      match found[occurrence_index]? with
      | some kv => .ok kv.1
      | none => .error .occurrenceOutOfRange

theorem firstIdxIn_some {doc : List Paragraph} {p : Paragraph → Bool} {lo hi j : Nat}
    (h : firstIdxIn doc p lo hi = some j) : lo ≤ j ∧ j < hi ∧ j < doc.length := by
  unfold firstIdxIn at h
  have hmem := List.mem_range'_1.mp (List.mem_of_find?_eq_some h)
  have hp := List.find?_some h
  refine ⟨hmem.1, by omega, ?_⟩
  cases hgj : doc[j]? with
  | none => rw [hgj] at hp; simp at hp
  | some para =>
    have := List.getElem?_eq_some.mp hgj
    exact this.1

theorem firstIdxIn_isSome {doc : List Paragraph} {p : Paragraph → Bool} {lo hi j : Nat}
    {para : Paragraph} (hlo : lo ≤ j) (hhi : j < hi) (hj : doc[j]? = some para)
    (hp : p para = true) : (firstIdxIn doc p lo hi).isSome := by
  cases hfind : firstIdxIn doc p lo hi with
  | some k => rfl
  | none =>
    exfalso
    unfold firstIdxIn at hfind
    have hall := List.find?_eq_none.mp hfind j (List.mem_range'_1.mpr ⟨hlo, by omega⟩)
    rw [hj] at hall
    exact hall hp

theorem findSome?_eq_find?_bind {α β : Type} (f : α → Option β) (l : List α) :
    l.findSome? f = (l.find? (fun a => (f a).isSome)).bind f := by
  induction l with
  | nil => simp
  | cons a as ih =>
    rw [List.findSome?_cons, List.find?_cons]
    cases hfa : f a <;> simp [hfa, ih]

theorem findSectionEnd_some {doc : List Paragraph} {i j : Nat} {mainSection : String}
    (h : findSectionEnd doc i mainSection = some j) : i + 1 ≤ j ∧ j < doc.length := by
  unfold findSectionEnd at h
  obtain ⟨a, _, ha⟩ := List.exists_of_findSome?_eq_some h
  have := firstIdxIn_some ha
  exact ⟨this.1, this.2.2⟩

theorem sectionEnd_getD_bounds {doc : List Paragraph} {i : Nat} (mainSection : String)
    (hi : i < doc.length) :
    i + 1 ≤ (findSectionEnd doc i mainSection).getD doc.length ∧
      (findSectionEnd doc i mainSection).getD doc.length ≤ doc.length := by
  cases hse : findSectionEnd doc i mainSection with
  | none => simp only [Option.getD_none]; omega
  | some j =>
    have := findSectionEnd_some hse
    simp only [Option.getD_some]
    omega

/-- Every range returned by the section locator lies inside the document:
`start ≤ end` and `end ≤ doc.length`. -/
theorem find_section_paragraph_bounds {doc : List Paragraph} {sp : String} {s e : Nat}
    (h : find_section_paragraph doc sp = some (s, e)) : s ≤ e ∧ e ≤ doc.length := by
  simp only [find_section_paragraph] at h
  split at h
  · exact absurd h (by simp)
  · rename_i i hmain
    have hi := firstIdxIn_some hmain
    have hse := @sectionEnd_getD_bounds doc i ((splitSectionPath sp).headD ("")) hi.2.1
    split at h
    · cases h
      omega
    · rename_i nested hnest
      split at h
      · exact absurd h (by simp)
      · rename_i k hk
        have hkb := firstIdxIn_some hk
        cases hne : firstIdxIn doc (fun p => is_heading_paragraph p) (k + 1)
            ((findSectionEnd doc i ((splitSectionPath sp).headD (""))).getD doc.length) with
        | none =>
          rw [hne] at h
          cases h
          simp only [Option.getD_none]
          omega
        | some m =>
          have hmb := firstIdxIn_some hne
          rw [hne] at h
          cases h
          simp only [Option.getD_some]
          omega

/-- The end index described by the claim for C2: the smallest paragraph
index strictly after `i` at which a heading paragraph's text equals some
other name of the fixed top-level vocabulary; document length if no such
heading exists. -/
def claimSmallestOtherVocabIdx (doc : List Paragraph) (i : Nat) (mainSection : String) : Nat :=
  (firstIdxIn doc
    (fun p => is_heading_paragraph p &&
      (top_level_sections.filter (fun s => s ≠ mainSection)).contains (pyStrip p.text))
    (i + 1) doc.length).getD doc.length

/-- The first vocabulary name, in the fixed order and skipping the main
section, that has a matching heading strictly after `i`. -/
def firstVocabNameWithHeading (doc : List Paragraph) (i : Nat) (mainSection : String) :
    Option String :=
  (top_level_sections.filter (fun s => s ≠ mainSection)).find?
    (fun s => (firstIdxIn doc
      (fun p => is_heading_paragraph p && pyStrip p.text = s) (i + 1) doc.length).isSome)

/-- The section end the code actually computes, stated declaratively: pick
the first name, in the fixed vocabulary order and skipping the main
section, that has any matching heading strictly after `i`; the end is the
smallest index of a heading matching that particular name, or the
document length when no vocabulary name matches at all. -/
def vocabOrderEnd (doc : List Paragraph) (i : Nat) (mainSection : String) : Nat :=
  match firstVocabNameWithHeading doc i mainSection with
  | some s => (firstIdxIn doc
      (fun p => is_heading_paragraph p && pyStrip p.text = s) (i + 1) doc.length).getD doc.length
  | none => doc.length

theorem findSectionEnd_eq_vocabOrderEnd (doc : List Paragraph) (i : Nat) (mainSection : String) :
    (findSectionEnd doc i mainSection).getD doc.length = vocabOrderEnd doc i mainSection := by
  unfold findSectionEnd vocabOrderEnd firstVocabNameWithHeading
  rw [findSome?_eq_find?_bind]
  cases hf : (top_level_sections.filter (fun s => s ≠ mainSection)).find?
      (fun s => (firstIdxIn doc
        (fun p => is_heading_paragraph p && pyStrip p.text = s) (i + 1) doc.length).isSome) with
  | none => simp
  | some a =>
    have hp := List.find?_some hf
    cases hfa : firstIdxIn doc
        (fun p => is_heading_paragraph p && pyStrip p.text = a) (i + 1) doc.length with
    | none => rw [hfa] at hp; simp at hp
    | some j => simp [hfa]

def exHeadingPara (t : String) : Paragraph := ⟨t, ("Heading 1"), []⟩

def exPlainPara (t : String) : Paragraph := ⟨t, ("Normal"), [⟨t, false⟩]⟩

/-- A document whose top-level headings appear out of the canonical
template order. -/
def exOutOfOrderDoc : List Paragraph :=
  [exHeadingPara ("Projects"), exHeadingPara ("Documentation"),
   exHeadingPara ("Goals for this year"), exPlainPara ("Did a thing")]

/-- C2 counterexample: on a document whose headings are out of the
canonical order, `find_section_paragraph` resolves `"Projects"` (matched
at heading index 0) to the range `(1, 2)`, although the smallest index
strictly after the matched heading holding a heading whose text is
another vocabulary name is 1 (`"Documentation"`): the returned end is not
the smallest such index. -/
theorem find_section_paragraph_end_not_smallest :
    find_section_paragraph exOutOfOrderDoc ("Projects") = some (1, 2) ∧
    firstIdxIn exOutOfOrderDoc
      (fun p => is_heading_paragraph p && sectionMatches ("Projects") (pyStrip p.text))
      0 exOutOfOrderDoc.length = some 0 ∧
    claimSmallestOtherVocabIdx exOutOfOrderDoc 0 ("Projects") = 1 ∧
    (2 : Nat) ≠ 1 :=
  ⟨by decide, by decide, by decide, by decide⟩

/-- C2 (amended): for a top-level section path, the range's end is
obtained by scanning the fixed vocabulary in order, skipping the main
section, taking the first name that has a matching heading strictly after
the matched heading, and returning the smallest paragraph index of a
heading matching that particular name; or the document length when no
vocabulary name matches. -/
theorem find_section_paragraph_end_vocab_order (doc : List Paragraph)
    (sectionPath mainSection : String) (s e : Nat)
    (hparts : splitSectionPath sectionPath = [mainSection])
    (h : find_section_paragraph doc sectionPath = some (s, e)) :
    ∃ i, firstIdxIn doc
        (fun p => is_heading_paragraph p && sectionMatches mainSection (pyStrip p.text))
        0 doc.length = some i ∧
      s = i + 1 ∧ e = vocabOrderEnd doc i mainSection := by
  simp only [find_section_paragraph, hparts, List.headD_cons, List.getElem?_cons_succ,
    List.getElem?_nil] at h
  split at h
  · exact absurd h (by simp)
  · rename_i i hmain
    cases h
    exact ⟨i, hmain, rfl, findSectionEnd_eq_vocabOrderEnd doc i mainSection⟩

/-- C2 witness: the amended theorem applied to the concrete out-of-order
document. -/
theorem find_section_paragraph_end_vocab_order_witness :
    ∃ i, firstIdxIn exOutOfOrderDoc
        (fun p => is_heading_paragraph p && sectionMatches ("Projects") (pyStrip p.text))
        0 exOutOfOrderDoc.length = some i ∧
      1 = i + 1 ∧ 2 = vocabOrderEnd exOutOfOrderDoc i ("Projects") :=
  find_section_paragraph_end_vocab_order exOutOfOrderDoc ("Projects") ("Projects") 1 2
    (by decide) (by decide)

theorem find_isSome_of_main_heading {doc : List Paragraph} {mainSection sectionPath : String}
    {j : Nat} {para : Paragraph}
    (hparts : splitSectionPath sectionPath = [mainSection])
    (hj : doc[j]? = some para) (hh : is_heading_paragraph para = true)
    (hm : sectionMatches mainSection (pyStrip para.text) = true) :
    (find_section_paragraph doc sectionPath).isSome := by
  have hjlen : j < doc.length := (List.getElem?_eq_some.mp hj).1
  have hsome := @firstIdxIn_isSome doc
    (fun p => is_heading_paragraph p && sectionMatches mainSection (pyStrip p.text))
    0 doc.length j para (Nat.zero_le j) hjlen hj
    (by show (is_heading_paragraph para && sectionMatches mainSection (pyStrip para.text)) = true
        rw [hh, hm]
        rfl)
  simp only [find_section_paragraph, hparts, List.headD_cons, List.getElem?_cons_succ,
    List.getElem?_nil]
  cases hfi : firstIdxIn doc
      (fun p => is_heading_paragraph p && sectionMatches mainSection (pyStrip p.text))
      0 doc.length with
  | none => rw [hfi] at hsome; simp at hsome
  | some i => simp

/-- A document holding a heading whose text is `"Goals for next year"`
but no heading reading `"Goals for next year (optional)"`. -/
def exAliasDoc : List Paragraph :=
  [exHeadingPara ("Goals for next year"), exPlainPara ("Improve testing")]

/-- C3 counterexample: on a document containing a heading whose text is
one of the two alias spellings (`"Goals for next year"`), locating
`"Goals for next year"` succeeds but locating
`"Goals for next year (optional)"` returns nothing — the alias is not
equivalent in both directions. -/
theorem alias_not_bidirectional :
    (exAliasDoc.any (fun p => is_heading_paragraph p &&
        (pyStrip p.text = ("Goals for next year") ||
         pyStrip p.text = ("Goals for next year (optional)"))) = true) ∧
    find_section_paragraph exAliasDoc ("Goals for next year") = some (1, 2) ∧
    find_section_paragraph exAliasDoc ("Goals for next year (optional)") = none :=
  ⟨by decide, by decide, by decide⟩

/-- C3 (amended): the alias works in one direction only.  Locating
`"Goals for next year"` succeeds whenever some heading carries either
alias spelling; locating `"Goals for next year (optional)"` succeeds
whenever some heading carries exactly that spelling (but, per the
counterexample, not when only `"Goals for next year"` is present). -/
theorem alias_one_directional (doc : List Paragraph) (j : Nat) (para : Paragraph)
    (hj : doc[j]? = some para) (hh : is_heading_paragraph para = true) :
    ((pyStrip para.text = ("Goals for next year") ∨
      pyStrip para.text = ("Goals for next year (optional)")) →
        (find_section_paragraph doc ("Goals for next year")).isSome) ∧
    (pyStrip para.text = ("Goals for next year (optional)") →
        (find_section_paragraph doc ("Goals for next year (optional)")).isSome) := by
  constructor
  · intro halias
    refine @find_isSome_of_main_heading doc ("Goals for next year")
      ("Goals for next year") j para (by decide) hj hh ?_
    simp only [sectionMatches]
    rcases halias with h1 | h1 <;> rw [h1] <;> decide
  · intro hexact
    refine @find_isSome_of_main_heading doc ("Goals for next year (optional)")
      ("Goals for next year (optional)") j para (by decide) hj hh ?_
    simp only [sectionMatches]
    rw [hexact]
    decide

/-- C3 witness: the amended theorem applied to the concrete document that
carries the `"Goals for next year"` heading. -/
theorem alias_one_directional_witness :
    ((pyStrip (exHeadingPara ("Goals for next year")).text = ("Goals for next year") ∨
      pyStrip (exHeadingPara ("Goals for next year")).text = ("Goals for next year (optional)")) →
        (find_section_paragraph exAliasDoc ("Goals for next year")).isSome) ∧
    (pyStrip (exHeadingPara ("Goals for next year")).text = ("Goals for next year (optional)") →
        (find_section_paragraph exAliasDoc ("Goals for next year (optional)")).isSome) :=
  alias_one_directional exAliasDoc 0 (exHeadingPara ("Goals for next year"))
    (by decide) (by decide)

/-- The append-position scan of `add_entry_to_document` (lines 433-438)
computes either the start (when no paragraph in `[s, s+n)` has non-empty
text) or one past the last index with non-empty text. -/
theorem appendFold_char (doc : List Paragraph) (s n : Nat) :
    ((List.range' s n).foldl
        (fun acc j => if decide (pyStrip (doc.getD j default).text ≠ "") then j + 1 else acc)
        s = s ∧
      ∀ j, s ≤ j → j < s + n → decide (pyStrip (doc.getD j default).text ≠ "") = false) ∨
    (∃ j, s ≤ j ∧ j < s + n ∧ decide (pyStrip (doc.getD j default).text ≠ "") = true ∧
      (List.range' s n).foldl
        (fun acc j => if decide (pyStrip (doc.getD j default).text ≠ "") then j + 1 else acc)
        s = j + 1 ∧
      ∀ m, j < m → m < s + n → decide (pyStrip (doc.getD m default).text ≠ "") = false) := by
  induction n with
  | zero =>
    left
    exact ⟨rfl, fun j h1 h2 => by omega⟩
  | succ n ih =>
    have hconcat : List.range' s (n + 1) = List.range' s n ++ [s + n] := by
      have := @List.range'_concat 1 s n
      simpa using this
    rw [hconcat, List.foldl_append]
    simp only [List.foldl_cons, List.foldl_nil]
    cases hP : decide (pyStrip (doc.getD (s + n) default).text ≠ "") with
    | true =>
      right
      refine ⟨s + n, by omega, by omega, hP, by rw [if_pos rfl], fun m h1 h2 => by omega⟩
    | false =>
      rcases ih with ⟨heq, hall⟩ | ⟨j, hj1, hj2, hj3, hj4, hj5⟩
      · left
        refine ⟨by rw [if_neg (by simp), heq], fun j h1 h2 => ?_⟩
        rcases Nat.lt_or_ge j (s + n) with hlt | hge
        · exact hall j h1 hlt
        · have hj : j = s + n := by omega
          rw [hj]; exact hP
      · right
        refine ⟨j, hj1, by omega, hj3, by rw [if_neg (by simp), hj4], fun m h1 h2 => ?_⟩
        rcases Nat.lt_or_ge m (s + n) with hlt | hge
        · exact hj5 m h1 hlt
        · have hm : m = s + n := by omega
          rw [hm]; exact hP

theorem insert_before_getElem? {α : Type} (l : List α) (a : α) (n : Nat) (h : n ≤ l.length) :
    (l.take n ++ a :: l.drop n)[n]? = some a := by
  have hlen : (l.take n).length = n := by
    simp [List.length_take]
    omega
  rw [List.getElem?_append_right (by omega), hlen, Nat.sub_self]
  simp

/-- C4: for every resolved section range `(s, e)` and every supplied
position, the insertion point returned by `add_entry_to_document` equals
`min (s + position) e`; out-of-range positions are silently clamped, and
the insertion point never leaves the interval `[s, e]`. -/
theorem insert_position_clamped (doc : List Paragraph) (sectionPath text : String)
    (pos s e : Nat) (h : find_section_paragraph doc sectionPath = some (s, e)) :
    ∃ doc2, add_entry_to_document doc sectionPath text (some pos) =
        Except.ok (doc2, min (s + pos) e) ∧
      s ≤ min (s + pos) e ∧ min (s + pos) e ≤ e := by
  obtain ⟨hse, hel⟩ := find_section_paragraph_bounds h
  have hrlen : min (s + pos) e ≤ doc.length := le_trans (Nat.min_le_right _ _) hel
  simp only [add_entry_to_document, h]
  rw [Nat.min_eq_left hrlen]
  by_cases hrl : min (s + pos) e < doc.length
  · rw [if_pos hrl]
    exact ⟨_, rfl, Nat.le_min.mpr ⟨Nat.le_add_right s pos, hse⟩, Nat.min_le_right _ _⟩
  · rw [if_neg hrl]
    have hreq : min (s + pos) e = doc.length := by omega
    exact ⟨_, by rw [hreq], Nat.le_min.mpr ⟨Nat.le_add_right s pos, hse⟩, Nat.min_le_right _ _⟩

/-- C4 witness: position 5 into the two-paragraph-wide `"Projects"`
range `(1, 2)` is clamped to the range end. -/
theorem insert_position_clamped_witness :
    ∃ doc2, add_entry_to_document exOutOfOrderDoc ("Projects") ("New thing") (some 5) =
        Except.ok (doc2, min (1 + 5) 2) ∧
      1 ≤ min (1 + 5) 2 ∧ min (1 + 5) 2 ≤ 2 :=
  insert_position_clamped exOutOfOrderDoc ("Projects") ("New thing") 5 1 2 (by decide)

/-- C5: with `position` unset, `add_entry_to_document` places the new
entry one past the last paragraph with non-empty text within the resolved
range (at the range start when the section has none), and the returned
value is the paragraph index at which the new paragraph resides. -/
theorem insert_append_semantics (doc : List Paragraph) (sectionPath text : String)
    (s e : Nat) (h : find_section_paragraph doc sectionPath = some (s, e)) :
    ∃ doc2 idx, add_entry_to_document doc sectionPath text none = Except.ok (doc2, idx) ∧
      ((idx = s ∧ ∀ j, s ≤ j → j < e → pyStrip (doc.getD j default).text = "") ∨
       (∃ j, s ≤ j ∧ j < e ∧ pyStrip (doc.getD j default).text ≠ "" ∧ idx = j + 1 ∧
          ∀ m, j < m → m < e → pyStrip (doc.getD m default).text = "")) ∧
      doc2[idx]? = some (mkBulletParagraph text) := by
  obtain ⟨hse, hel⟩ := find_section_paragraph_bounds h
  simp only [add_entry_to_document, h]
  have hchar := appendFold_char doc s (e - s)
  have hsum : s + (e - s) = e := by omega
  rw [hsum] at hchar
  set r := (List.range' s (e - s)).foldl
      (fun acc j => if decide (pyStrip (doc.getD j default).text ≠ "") then j + 1 else acc) s
      with hr
  have hre : r ≤ e := by
    rcases hchar with ⟨heq, _⟩ | ⟨j, _, hj2, _, hj4, _⟩ <;> omega
  have hrlen : r ≤ doc.length := le_trans hre hel
  rw [Nat.min_eq_left hrlen]
  by_cases hrl : r < doc.length
  · rw [if_pos hrl]
    refine ⟨_, r, rfl, ?_, insert_before_getElem? doc (mkBulletParagraph text) r hrlen⟩
    rcases hchar with ⟨heq, hall⟩ | ⟨j, hj1, hj2, hj3, hj4, hj5⟩
    · exact Or.inl ⟨heq, fun j h1 h2 => not_ne_iff.mp (of_decide_eq_false (hall j h1 h2))⟩
    · exact Or.inr ⟨j, hj1, hj2, of_decide_eq_true hj3, hj4,
        fun m h1 h2 => not_ne_iff.mp (of_decide_eq_false (hj5 m h1 h2))⟩
  · rw [if_neg hrl]
    have hreq : r = doc.length := by omega
    refine ⟨_, doc.length, rfl, ?_, ?_⟩
    · rcases hchar with ⟨heq, hall⟩ | ⟨j, hj1, hj2, hj3, hj4, hj5⟩
      · exact Or.inl ⟨by omega, fun j h1 h2 => not_ne_iff.mp (of_decide_eq_false (hall j h1 h2))⟩
      · exact Or.inr ⟨j, hj1, hj2, of_decide_eq_true hj3, by omega,
          fun m h1 h2 => not_ne_iff.mp (of_decide_eq_false (hj5 m h1 h2))⟩
    · rw [List.getElem?_append_right (le_refl _), Nat.sub_self]
      rfl

/-- C5 witness: appending to `"Projects"` in the concrete document lands
one past its single non-empty paragraph. -/
theorem insert_append_semantics_witness :
    ∃ doc2 idx, add_entry_to_document exOutOfOrderDoc ("Projects") ("New thing") none =
        Except.ok (doc2, idx) ∧
      ((idx = 1 ∧ ∀ j, 1 ≤ j → j < 2 → pyStrip (exOutOfOrderDoc.getD j default).text = "") ∨
       (∃ j, 1 ≤ j ∧ j < 2 ∧ pyStrip (exOutOfOrderDoc.getD j default).text ≠ "" ∧ idx = j + 1 ∧
          ∀ m, j < m → m < 2 → pyStrip (exOutOfOrderDoc.getD m default).text = "")) ∧
      doc2[idx]? = some (mkBulletParagraph ("New thing")) :=
  insert_append_semantics exOutOfOrderDoc ("Projects") ("New thing") 1 2 (by decide)

theorem alGet_alSet_self {α : Type} (l : List (String × α)) (k : String) (v : α) :
    alGet (alSet l k v) k = some v := by
  induction l with
  | nil => simp [alSet, alGet]
  | cons kv rest ih =>
    by_cases hk : kv.1 = k
    · simp [alSet, alGet, hk]
    · simp [alSet, alGet, hk, ih]

theorem alGet_alSet_ne {α : Type} (l : List (String × α)) (k q : String) (v : α)
    (h : q ≠ k) : alGet (alSet l k v) q = alGet l q := by
  have hkq : k ≠ q := Ne.symm h
  induction l with
  | nil => simp [alSet, alGet, hkq]
  | cons kv rest ih =>
    rcases kv with ⟨a, b⟩
    by_cases hk : a = k
    · subst hk
      simp [alSet, alGet, hkq]
    · simp [alSet, alGet, hk, ih]

/-- C6: `update_entry_to_index` fails with a not-found condition when
`entry_id` is absent from the entries map; otherwise it overwrites only
that entry's text and refreshes the entry's and the index's `updated_at`,
leaving the entry's `paragraph_index`, `section_path` and `created_at`,
the sections map, and every other entry unchanged. -/
theorem update_entry_to_index_frame (idx : Index) (eid txt : String) (t1 t2 t3 : Nat) :
    ((alGet idx.entries eid).isNone →
      ∃ msg, update_entry_to_index idx eid txt t1 t2 t3 = Except.error msg) ∧
    (∀ e, alGet idx.entries eid = some e →
      ∃ idx2, update_entry_to_index idx eid txt t1 t2 t3 = Except.ok idx2 ∧
        (∃ e2, alGet idx2.entries eid = some e2 ∧ e2.text = txt ∧ e2.updated_at = t1 ∧
          e2.entry_id = e.entry_id ∧ e2.paragraph_index = e.paragraph_index ∧
          e2.section_path = e.section_path ∧ e2.created_at = e.created_at) ∧
        idx2.sections = idx.sections ∧
        idx2.document_name = idx.document_name ∧
        idx2.created_at = idx.created_at ∧
        idx2.updated_at = t3 ∧
        (∀ k, k ≠ eid → alGet idx2.entries k = alGet idx.entries k)) := by
  constructor
  · intro hnone
    rw [Option.isNone_iff_eq_none] at hnone
    simp only [update_entry_to_index, hnone]
    exact ⟨_, rfl⟩
  · intro e hget
    simp only [update_entry_to_index, hget, save_index]
    refine ⟨_, rfl, ⟨{ e with text := txt, updated_at := t1 }, ?_, rfl, rfl, rfl, rfl, rfl, rfl⟩,
      rfl, rfl, rfl, rfl, fun k hk => ?_⟩
    · exact alGet_alSet_self idx.entries eid _
    · exact alGet_alSet_ne idx.entries eid k _ hk

def exEntryA : Entry := ⟨("id-a"), ("Projects"), ("Shipped X"), 3, 10, 10⟩

def exEntryB : Entry := ⟨("id-b"), ("Documentation"), ("Wrote docs"), 7, 11, 11⟩

def exIndex : Index :=
  { document_name := ("Brag Document - Jane Doe (2025)"), created_at := 9, updated_at := 11,
    sections := [(("Projects"), ⟨10, [("id-a")]⟩), (("Documentation"), ⟨11, [("id-b")]⟩)],
    entries := [(("id-a"), exEntryA), (("id-b"), exEntryB)] }

/-- C6 witness: updating `"id-a"` in the concrete two-entry index. -/
theorem update_entry_to_index_frame_witness :
    ∃ idx2, update_entry_to_index exIndex ("id-a") ("Shipped X v2") 20 21 22 = Except.ok idx2 ∧
      (∃ e2, alGet idx2.entries ("id-a") = some e2 ∧ e2.text = ("Shipped X v2") ∧
        e2.updated_at = 20 ∧ e2.entry_id = exEntryA.entry_id ∧
        e2.paragraph_index = exEntryA.paragraph_index ∧
        e2.section_path = exEntryA.section_path ∧ e2.created_at = exEntryA.created_at) ∧
      idx2.sections = exIndex.sections ∧
      idx2.document_name = exIndex.document_name ∧
      idx2.created_at = exIndex.created_at ∧
      idx2.updated_at = 22 ∧
      (∀ k, k ≠ ("id-a") → alGet idx2.entries k = alGet exIndex.entries k) :=
  (update_entry_to_index_frame exIndex ("id-a") ("Shipped X v2") 20 21 22).2 exEntryA (by decide)

/-- The entries recorded under a given section, in index insertion
order. -/
def sectionEntriesOf (idx : Index) (section_path : String) : List (String × Entry) :=
  idx.entries.filter (fun kv => decide (kv.2.section_path = section_path))

/-- The entries recorded under a given section whose text equals the
query, in index insertion order. -/
def matchesOf (idx : Index) (query section_path : String) : List (String × Entry) :=
  (sectionEntriesOf idx section_path).filter (fun kv => decide (kv.2.text = query))

/-- C1: `find_entry_by_text` filters the entries to those in the section
whose text equals the query, preserving index insertion order (the match
list is a sublist of the entries map), and returns the
`occurrence_index`-th match's identifier; the three error outcomes are
distinguishable, each equivalent to its own disjoint condition: section
with zero entries, no match at all, and occurrence index beyond the match
count. -/
theorem find_entry_by_text_characterization (idx : Index) (query section_path : String)
    (occ : Nat) :
    List.Sublist (matchesOf idx query section_path) idx.entries ∧
    (find_entry_by_text idx query section_path occ = Except.error FindErr.sectionEmpty ↔
      sectionEntriesOf idx section_path = []) ∧
    (find_entry_by_text idx query section_path occ = Except.error FindErr.noMatch ↔
      sectionEntriesOf idx section_path ≠ [] ∧ matchesOf idx query section_path = []) ∧
    (find_entry_by_text idx query section_path occ = Except.error FindErr.occurrenceOutOfRange ↔
      matchesOf idx query section_path ≠ [] ∧ (matchesOf idx query section_path).length ≤ occ) ∧
    (∀ eid, find_entry_by_text idx query section_path occ = Except.ok eid ↔
      ∃ kv, (matchesOf idx query section_path)[occ]? = some kv ∧ kv.1 = eid) := by
  refine ⟨List.Sublist.trans (List.filter_sublist _) (List.filter_sublist _), ?_⟩
  simp only [matchesOf, sectionEntriesOf]
  set A := idx.entries.filter (fun kv => decide (kv.2.section_path = section_path)) with hA
  set B := A.filter (fun kv => decide (kv.2.text = query)) with hB
  by_cases h1 : A = []
  · have hres : find_entry_by_text idx query section_path occ =
        Except.error FindErr.sectionEmpty := by
      simp only [find_entry_by_text]
      rw [← hA, h1]
      rfl
    have hBnil : B = [] := by rw [hB, h1]; rfl
    refine ⟨iff_of_true hres h1, ?_, ?_, fun eid => ?_⟩
    · exact iff_of_false (by rw [hres]; simp) (fun hc => hc.1 h1)
    · exact iff_of_false (by rw [hres]; simp) (fun hc => hc.1 hBnil)
    · exact iff_of_false (by rw [hres]; simp)
        (by rintro ⟨kv2, hkv2, _⟩; rw [hBnil] at hkv2; simp at hkv2)
  · by_cases h2 : B = []
    · have hres : find_entry_by_text idx query section_path occ =
          Except.error FindErr.noMatch := by
        simp only [find_entry_by_text]
        rw [← hA, if_neg h1, ← hB, h2]
        rfl
      refine ⟨iff_of_false (by rw [hres]; simp) h1, iff_of_true hres ⟨h1, h2⟩, ?_, fun eid => ?_⟩
      · exact iff_of_false (by rw [hres]; simp) (fun hc => hc.1 h2)
      · exact iff_of_false (by rw [hres]; simp)
          (by rintro ⟨kv2, hkv2, _⟩; rw [h2] at hkv2; simp at hkv2)
    · cases hocc : B[occ]? with
      | none =>
        have hres : find_entry_by_text idx query section_path occ =
            Except.error FindErr.occurrenceOutOfRange := by
          simp only [find_entry_by_text]
          rw [← hA, if_neg h1, ← hB, if_neg h2, hocc]
        have hlen : B.length ≤ occ := List.getElem?_eq_none_iff.mp hocc
        refine ⟨iff_of_false (by rw [hres]; simp) h1, ?_,
          iff_of_true hres ⟨h2, hlen⟩, fun eid => ?_⟩
        · exact iff_of_false (by rw [hres]; simp) (fun hc => h2 hc.2)
        · exact iff_of_false (by rw [hres]; simp)
            (by rintro ⟨kv2, hkv2, _⟩; cases hkv2)
      | some kv =>
        have hres : find_entry_by_text idx query section_path occ = Except.ok kv.1 := by
          simp only [find_entry_by_text]
          rw [← hA, if_neg h1, ← hB, if_neg h2, hocc]
        have hlt : occ < B.length := (List.getElem?_eq_some.mp hocc).1
        refine ⟨iff_of_false (by rw [hres]; simp) h1, ?_, ?_, fun eid => ?_⟩
        · exact iff_of_false (by rw [hres]; simp) (fun hc => h2 hc.2)
        · exact iff_of_false (by rw [hres]; simp) (fun hc => (Nat.not_le.mpr hlt) hc.2)
        · constructor
          · intro hok
            rw [hres] at hok
            exact ⟨kv, rfl, Except.ok.inj hok⟩
          · rintro ⟨kv2, hkv2, hkid⟩
            cases hkv2
            rw [hres, hkid]

/-- One index-mutating operation: a `record_insert`
(`add_entry_to_index`) or a `record_update` (`update_entry_to_index`),
with the timestamp reads of each call. -/
inductive IndexOp where
  | insertOp (eid sp text : String) (pidx t1 t2 t3 t4 : Nat)
  | updateOp (eid txt : String) (t1 t2 t3 : Nat)
deriving DecidableEq, Repr

/-- Apply one operation to the index state; a failing update (KeyError)
leaves the persisted index unchanged, the save never being reached. -/
def applyOp (idx : Index) : IndexOp → Index
  | .insertOp eid sp text pidx t1 t2 t3 t4 => add_entry_to_index idx eid sp text pidx t1 t2 t3 t4
  | .updateOp eid txt t1 t2 t3 =>
    match update_entry_to_index idx eid txt t1 t2 t3 with
    | .ok idx2 => idx2
    | .error _ => idx

def applyOps (idx : Index) (ops : List IndexOp) : Index :=
  ops.foldl applyOp idx

/-- The cross-reference invariant of the spec: every `entry_id` listed in
a section bucket exists in `entries` and carries that bucket's section
path. -/
def goodIndexB (idx : Index) : Bool :=
  idx.sections.all (fun skv =>
    skv.2.entry_ids.all (fun eid =>
      match alGet idx.entries eid with
      | some e => decide (e.section_path = skv.1)
      | none => false))

def entryConsistent (entries : List (String × Entry)) (sp eid : String) : Prop :=
  ∃ e, alGet entries eid = some e ∧ e.section_path = sp

theorem goodIndexB_iff (idx : Index) :
    goodIndexB idx = true ↔
      ∀ skv ∈ idx.sections, ∀ eid ∈ skv.2.entry_ids,
        entryConsistent idx.entries skv.1 eid := by
  unfold goodIndexB entryConsistent
  simp only [List.all_eq_true]
  constructor
  · intro h skv hs eid he
    have hm := h skv hs eid he
    cases hg : alGet idx.entries eid with
    | none => rw [hg] at hm; simp at hm
    | some e =>
      rw [hg] at hm
      simp at hm
      exact ⟨e, rfl, hm⟩
  · intro h skv hs eid he
    obtain ⟨e, hg, hsp⟩ := h skv hs eid he
    rw [hg]
    simp [hsp]

/-- An insert is fresh when its entry id is not yet a key of `entries`
(the server guarantees this by generating a UUID per insert). -/
def freshOp (idx : Index) : IndexOp → Bool
  | .insertOp eid _ _ _ _ _ _ _ => (alGet idx.entries eid).isNone
  | .updateOp _ _ _ _ _ => true

def freshOps (idx : Index) : List IndexOp → Bool
  | [] => true
  | op :: rest => freshOp idx op && freshOps (applyOp idx op) rest

theorem mem_alSet {α : Type} {l : List (String × α)} {k : String} {v : α} {x : String × α}
    (h : x ∈ alSet l k v) : x ∈ l ∨ x = (k, v) := by
  induction l with
  | nil =>
    simp [alSet] at h
    right
    exact h
  | cons kv rest ih =>
    rcases kv with ⟨a, b⟩
    by_cases hk : a = k
    · subst hk
      simp only [alSet, if_pos rfl] at h
      rcases List.mem_cons.mp h with h | h
      · right; exact h
      · left; exact List.mem_cons_of_mem _ h
    · simp only [alSet, if_neg hk] at h
      rcases List.mem_cons.mp h with h | h
      · left; rw [h]; exact List.mem_cons_self _ _
      · rcases ih h with h2 | h2
        · left; exact List.mem_cons_of_mem _ h2
        · right; exact h2

theorem mem_alModify {α : Type} {l : List (String × α)} {k : String} {f : α → α}
    {x : String × α} (h : x ∈ alModify l k f) :
    x ∈ l ∨ ∃ v, (k, v) ∈ l ∧ x = (k, f v) := by
  induction l with
  | nil => simp [alModify] at h
  | cons kv rest ih =>
    rcases kv with ⟨a, b⟩
    by_cases hk : a = k
    · subst hk
      simp only [alModify, if_pos rfl] at h
      rcases List.mem_cons.mp h with h | h
      · right; exact ⟨b, List.mem_cons_self _ _, h⟩
      · left; exact List.mem_cons_of_mem _ h
    · simp only [alModify, if_neg hk] at h
      rcases List.mem_cons.mp h with h | h
      · left; rw [h]; exact List.mem_cons_self _ _
      · rcases ih h with h2 | ⟨v, hv, hx⟩
        · left; exact List.mem_cons_of_mem _ h2
        · right; exact ⟨v, List.mem_cons_of_mem _ hv, hx⟩

theorem insert_preserves_good (idx : Index) (eid sp text : String) (pidx t1 t2 t3 t4 : Nat)
    (hgood : goodIndexB idx = true) (hfresh : alGet idx.entries eid = none) :
    goodIndexB (add_entry_to_index idx eid sp text pidx t1 t2 t3 t4) = true := by
  rw [goodIndexB_iff] at hgood ⊢
  simp only [add_entry_to_index, save_index]
  intro skv hs eid2 he2
  have hself : alGet (alSet idx.entries eid ⟨eid, sp, text, pidx, t2, t3⟩) eid =
      some ⟨eid, sp, text, pidx, t2, t3⟩ := alGet_alSet_self idx.entries eid _
  have holdc : ∀ sp2 q, entryConsistent idx.entries sp2 q →
      entryConsistent (alSet idx.entries eid ⟨eid, sp, text, pidx, t2, t3⟩) sp2 q := by
    rintro sp2 q ⟨e, hg, hsp⟩
    have hq : q ≠ eid := fun hqe => by rw [hqe, hfresh] at hg; cases hg
    exact ⟨e, by rw [alGet_alSet_ne idx.entries eid q _ hq]; exact hg, hsp⟩
  have hs1 : ∀ x : String × SectionInfo,
      x ∈ (if (alGet idx.sections sp).isNone
        then alSet idx.sections sp ⟨t1, []⟩ else idx.sections) →
      x ∈ idx.sections ∨ x = (sp, (⟨t1, []⟩ : SectionInfo)) := by
    intro x hx
    by_cases hnew : (alGet idx.sections sp).isNone = true
    · rw [if_pos hnew] at hx
      exact mem_alSet hx
    · rw [if_neg hnew] at hx
      exact Or.inl hx
  rcases mem_alModify hs with hsk | ⟨v, hv, hx⟩
  · rcases hs1 skv hsk with hold | hnewb
    · exact holdc skv.1 eid2 (hgood skv hold eid2 he2)
    · rw [hnewb] at he2
      simp at he2
  · rcases hs1 (sp, v) hv with hold | hnewb
    · rw [hx] at he2 ⊢
      have he3 : eid2 ∈ v.entry_ids ++ [eid] := he2
      rcases List.mem_append.mp he3 with hin | hin
      · exact holdc sp eid2 (hgood (sp, v) hold eid2 hin)
      · have heq : eid2 = eid := List.mem_singleton.mp hin
        rw [heq]
        exact ⟨_, hself, rfl⟩
    · have hv2 : v = ⟨t1, []⟩ := by
        have := congrArg Prod.snd hnewb
        simpa using this
      rw [hx] at he2 ⊢
      have he3 : eid2 ∈ v.entry_ids ++ [eid] := he2
      rcases List.mem_append.mp he3 with hin | hin
      · rw [hv2] at hin
        simp at hin
      · have heq : eid2 = eid := List.mem_singleton.mp hin
        rw [heq]
        exact ⟨_, hself, rfl⟩

theorem update_preserves_good (idx : Index) (eid txt : String) (t1 t2 t3 : Nat)
    (hgood : goodIndexB idx = true) :
    goodIndexB (applyOp idx (.updateOp eid txt t1 t2 t3)) = true := by
  simp only [applyOp, update_entry_to_index]
  cases hg : alGet idx.entries eid with
  | none => exact hgood
  | some e =>
    simp only [save_index]
    rw [goodIndexB_iff] at hgood ⊢
    intro skv hs eid2 he2
    have hs2 : skv ∈ idx.sections := hs
    obtain ⟨e3, hg3, hsp3⟩ := hgood skv hs2 eid2 he2
    by_cases heq : eid2 = eid
    · subst heq
      have he3 : e3 = e := by rw [hg3] at hg; exact Option.some.inj hg
      refine ⟨{ e with text := txt, updated_at := t1 }, alGet_alSet_self idx.entries eid2 _, ?_⟩
      show e.section_path = skv.1
      rw [← he3]
      exact hsp3
    · exact ⟨e3, by rw [alGet_alSet_ne idx.entries eid eid2 _ heq]; exact hg3, hsp3⟩

theorem applyOp_preserves_good (idx : Index) (op : IndexOp)
    (hgood : goodIndexB idx = true) (hfresh : freshOp idx op = true) :
    goodIndexB (applyOp idx op) = true := by
  cases op with
  | insertOp eid sp text pidx t1 t2 t3 t4 =>
    have hfr : alGet idx.entries eid = none := by
      simpa [freshOp, Option.isNone_iff_eq_none] using hfresh
    exact insert_preserves_good idx eid sp text pidx t1 t2 t3 t4 hgood hfr
  | updateOp eid txt t1 t2 t3 =>
    exact update_preserves_good idx eid txt t1 t2 t3 hgood

theorem applyOp_preserves_entry (idx : Index) (op : IndexOp) (eid : String) (e : Entry)
    (hfresh : freshOp idx op = true) (hget : alGet idx.entries eid = some e) :
    ∃ e2, alGet (applyOp idx op).entries eid = some e2 ∧
      e2.entry_id = e.entry_id ∧ e2.section_path = e.section_path ∧
      e2.created_at = e.created_at := by
  cases op with
  | insertOp eidI sp text pidx t1 t2 t3 t4 =>
    have hfr : alGet idx.entries eidI = none := by
      simpa [freshOp, Option.isNone_iff_eq_none] using hfresh
    have hne : eid ≠ eidI := fun h => by rw [h, hfr] at hget; cases hget
    refine ⟨e, ?_, rfl, rfl, rfl⟩
    simp only [applyOp, add_entry_to_index, save_index]
    rw [alGet_alSet_ne idx.entries eidI eid _ hne]
    exact hget
  | updateOp eidU txt t1 t2 t3 =>
    simp only [applyOp, update_entry_to_index]
    cases hg : alGet idx.entries eidU with
    | none => exact ⟨e, hget, rfl, rfl, rfl⟩
    | some eU =>
      simp only [save_index]
      by_cases heq : eid = eidU
      · subst heq
        have heU : eU = e := by rw [hget] at hg; exact (Option.some.inj hg).symm
        subst heU
        exact ⟨_, alGet_alSet_self idx.entries eid _, rfl, rfl, rfl⟩
      · exact ⟨e, by rw [alGet_alSet_ne idx.entries eidU eid _ heq]; exact hget, rfl, rfl, rfl⟩

theorem applyOps_preserves_good (idx : Index) (ops : List IndexOp)
    (hgood : goodIndexB idx = true) (hfresh : freshOps idx ops = true) :
    goodIndexB (applyOps idx ops) = true := by
  induction ops generalizing idx with
  | nil => exact hgood
  | cons op rest ih =>
    simp only [freshOps, Bool.and_eq_true] at hfresh
    exact ih (applyOp idx op) (applyOp_preserves_good idx op hgood hfresh.1) hfresh.2

theorem applyOps_preserves_entry (idx : Index) (ops : List IndexOp) (eid : String) (e : Entry)
    (hfresh : freshOps idx ops = true) (hget : alGet idx.entries eid = some e) :
    ∃ e2, alGet (applyOps idx ops).entries eid = some e2 ∧
      e2.entry_id = e.entry_id ∧ e2.section_path = e.section_path ∧
      e2.created_at = e.created_at := by
  induction ops generalizing idx e with
  | nil => exact ⟨e, hget, rfl, rfl, rfl⟩
  | cons op rest ih =>
    simp only [freshOps, Bool.and_eq_true] at hfresh
    obtain ⟨e1, hg1, hid1, hsp1, hc1⟩ := applyOp_preserves_entry idx op eid e hfresh.1 hget
    obtain ⟨e2, hg2, hid2, hsp2, hc2⟩ := ih (applyOp idx op) e1 hfresh.2 hg1
    exact ⟨e2, hg2, hid2.trans hid1, hsp2.trans hsp1, hc2.trans hc1⟩

theorem freshOps_append (idx : Index) (l1 l2 : List IndexOp) :
    freshOps idx (l1 ++ l2) = (freshOps idx l1 && freshOps (applyOps idx l1) l2) := by
  induction l1 generalizing idx with
  | nil => simp [freshOps, applyOps]
  | cons op rest ih =>
    simp only [List.cons_append, freshOps, applyOps, List.foldl_cons]
    rw [show rest.append l2 = rest ++ l2 from rfl, ih, Bool.and_assoc]
    rfl

theorem applyOps_append (idx : Index) (l1 l2 : List IndexOp) :
    applyOps idx (l1 ++ l2) = applyOps (applyOps idx l1) l2 := by
  simp [applyOps, List.foldl_append]

/-- Two inserts reusing the same entry id under different sections. -/
def exBadOps : List IndexOp :=
  [IndexOp.insertOp ("id1") ("Projects") ("t") 2 0 0 0 0,
   IndexOp.insertOp ("id1") ("Documentation") ("t") 4 1 1 1 1]

/-- C7 counterexample: from a freshly initialized empty index, the
sequence insert(id1, Projects) then insert(id1, Documentation) — allowed
by the claim, which quantifies over any sequence of operations — leaves
`"id1"` listed in the Projects bucket while `entries["id1"]` carries
section `"Documentation"`: the cross-reference invariant is violated. -/
theorem index_invariant_violated_by_duplicate_insert :
    goodIndexB (applyOps (freshIndex ("Doc") 0 0) exBadOps) = false := by decide

/-- C7 (amended): starting from a freshly initialized empty index, after
any sequence of inserts and updates in which every insert supplies an
entry id not already present in `entries` (as the server guarantees by
generating a UUID per insert), every entry id listed in a section bucket
exists in `entries` with that bucket's section path; moreover keys are
never reassigned: an entry present after a prefix of the sequence
persists with the same `entry_id`, `section_path` and `created_at`, only
its text and update timestamp changing. -/
theorem index_invariant_fresh_ids (stem : String) (tc tu : Nat) (ops1 ops2 : List IndexOp)
    (hfresh : freshOps (freshIndex stem tc tu) (ops1 ++ ops2) = true) :
    goodIndexB (applyOps (freshIndex stem tc tu) (ops1 ++ ops2)) = true ∧
    (∀ eid e, alGet (applyOps (freshIndex stem tc tu) ops1).entries eid = some e →
      ∃ e2, alGet (applyOps (freshIndex stem tc tu) (ops1 ++ ops2)).entries eid = some e2 ∧
        e2.entry_id = e.entry_id ∧ e2.section_path = e.section_path ∧
        e2.created_at = e.created_at) := by
  have hinit : goodIndexB (freshIndex stem tc tu) = true := rfl
  have hfresh2 := hfresh
  rw [freshOps_append, Bool.and_eq_true] at hfresh2
  refine ⟨applyOps_preserves_good _ _ hinit hfresh, fun eid e hget => ?_⟩
  rw [applyOps_append]
  exact applyOps_preserves_entry _ ops2 eid e hfresh2.2 hget

/-- Fresh-id operations for the C7 witness: one insert, one update. -/
def exGoodOps1 : List IndexOp := [IndexOp.insertOp ("id1") ("Projects") ("Shipped X") 3 1 1 1 1]

def exGoodOps2 : List IndexOp := [IndexOp.updateOp ("id1") ("Shipped X v2") 2 2 2]

/-- C7 witness: the amended theorem applied to a concrete fresh-id
sequence. -/
theorem index_invariant_fresh_ids_witness :
    goodIndexB (applyOps (freshIndex ("Doc") 0 0) (exGoodOps1 ++ exGoodOps2)) = true ∧
    (∀ eid e, alGet (applyOps (freshIndex ("Doc") 0 0) exGoodOps1).entries eid = some e →
      ∃ e2, alGet (applyOps (freshIndex ("Doc") 0 0)
          (exGoodOps1 ++ exGoodOps2)).entries eid = some e2 ∧
        e2.entry_id = e.entry_id ∧ e2.section_path = e.section_path ∧
        e2.created_at = e.created_at) :=
  index_invariant_fresh_ids ("Doc") 0 0 exGoodOps1 exGoodOps2 (by decide)

/-- C8: `create_brag_document` is idempotent: when the document already
exists it reports the exists status together with the deterministic
document and index paths and leaves the document untouched; on an absent
document (with the template available) the first invocation reports the
created status. -/
theorem create_idempotent (st : FsState) (root full_name : String) (year : Nat)
    (initRes : Except (List Paragraph) (List Paragraph)) (t1 t2 : Nat) :
    (∀ d, st.document = some d →
      (create_brag_document st root full_name year initRes t1 t2).1.status =
          CreateStatus.alreadyExists ∧
      (create_brag_document st root full_name year initRes t1 t2).2.document = some d ∧
      (create_brag_document st root full_name year initRes t1 t2).1.document_path =
        get_document_path root full_name year ∧
      (create_brag_document st root full_name year initRes t1 t2).1.index_path =
        get_index_path root full_name year) ∧
    (st.document = none → st.template.isSome = true →
      (create_brag_document st root full_name year initRes t1 t2).1.status =
        CreateStatus.created) := by
  constructor
  · intro d hd
    simp [create_brag_document, hd]
  · intro hd htpl
    cases htp : st.template with
    | none => rw [htp] at htpl; cases htpl
    | some tpl => simp only [create_brag_document, hd, htp]

/-- A filesystem state whose document already exists. -/
def exFsExists : FsState :=
  { document := some exOutOfOrderDoc, indexFile := none, template := some exOutOfOrderDoc }

/-- C8 witness: re-invoking create on the existing concrete document. -/
theorem create_idempotent_witness :
    (create_brag_document exFsExists ("/ws") ("Jane Doe") 2025 (Except.ok []) 0 1).1.status =
        CreateStatus.alreadyExists ∧
    (create_brag_document exFsExists ("/ws") ("Jane Doe") 2025 (Except.ok []) 0 1).2.document =
        some exOutOfOrderDoc ∧
    (create_brag_document exFsExists ("/ws") ("Jane Doe") 2025 (Except.ok []) 0 1).1.document_path =
        get_document_path ("/ws") ("Jane Doe") 2025 ∧
    (create_brag_document exFsExists ("/ws") ("Jane Doe") 2025 (Except.ok []) 0 1).1.index_path =
        get_index_path ("/ws") ("Jane Doe") 2025 :=
  (create_idempotent exFsExists ("/ws") ("Jane Doe") 2025 (Except.ok []) 0 1).1
    exOutOfOrderDoc rfl

/-- C9: in the backup-protected initialization step of create, the backup
is discarded on both paths, and the document the caller observes is the
fully initialized one on success and the pre-initialization original on
failure — never the intermediate state a failed initialization left
behind. -/
theorem create_backup_protocol (tpl dmid d2 : List Paragraph) :
    createInitStep tpl (Except.error dmid) = (tpl, none) ∧
    createInitStep tpl (Except.ok d2) = (d2, none) :=
  ⟨rfl, rfl⟩

/-- C10 counterexample: the fresh index written by `load_index` via
`ensure_index_file` takes `created_at` and `updated_at` from two distinct
successive clock reads, so they need not match: with reads 0 and 1 the
two fields differ. -/
theorem load_index_timestamps_differ :
    (load_index none ("Brag Document - Jane Doe (2025)") 0 1).1.created_at = 0 ∧
    (load_index none ("Brag Document - Jane Doe (2025)") 0 1).1.updated_at = 1 ∧
    (0 : Nat) ≠ 1 :=
  ⟨rfl, rfl, by decide⟩

/-- C10 (amended): `load_index` never fails with a file-not-found error:
on an absent file it first writes a fresh empty index — empty sections
and entries maps, `document_name` from the file stem, `created_at` and
`updated_at` taken from the two successive clock reads at creation (which
need not be equal) — and returns it, so the file exists after the call;
on a present file it returns its contents unchanged. -/
theorem load_index_creates_fresh (file : Option Index) (stem : String) (t1 t2 : Nat) :
    (load_index file stem t1 t2).2 = some (load_index file stem t1 t2).1 ∧
    (file = none →
      (load_index file stem t1 t2).1 = freshIndex stem t1 t2 ∧
      (load_index file stem t1 t2).1.sections = [] ∧
      (load_index file stem t1 t2).1.entries = [] ∧
      (load_index file stem t1 t2).1.document_name = stem ∧
      (load_index file stem t1 t2).1.created_at = t1 ∧
      (load_index file stem t1 t2).1.updated_at = t2) ∧
    (∀ i, file = some i → load_index file stem t1 t2 = (i, some i)) := by
  refine ⟨?_, ?_, ?_⟩
  · cases file <;> rfl
  · intro h
    subst h
    exact ⟨rfl, rfl, rfl, rfl, rfl, rfl⟩
  · intro i h
    subst h
    rfl

/-- C10 witness: loading an absent index file at concrete clock reads. -/
theorem load_index_creates_fresh_witness :
    (load_index none ("Doc A") 5 6).2 = some (load_index none ("Doc A") 5 6).1 ∧
    (load_index none ("Doc A") 5 6).1 = freshIndex ("Doc A") 5 6 :=
  ⟨(load_index_creates_fresh none ("Doc A") 5 6).1,
   ((load_index_creates_fresh none ("Doc A") 5 6).2.1 rfl).1⟩
